import Mathlib

/-!
Formal model of the record-reconstruction parser of
src/engg_pdf_extraction.py: the two seat-type normalizers, the line
classifiers derived from the module's regular expressions, and the
line-scanning state machine of extract_data_to_excel.  Strings are
modelled as lists of characters; the ASCII fragment of Python's
str.upper, str.strip and the regex character classes is embedded
explicitly.
-/

abbrev Str := List Char

/-- Whitespace in the sense of Python str.strip and the regex class \s
(ASCII range: space, tab, newline, carriage return, vertical tab, form feed). -/
def isPySpace (c : Char) : Bool :=
  c = ' ' ∨ c = '\t' ∨ c = '\n' ∨ c = '\r' ∨ c = Char.ofNat 11 ∨ c = Char.ofNat 12

/-- Remove the maximal run of characters satisfying p from the end of a list. -/
def dropTrailing (p : Char → Bool) (l : Str) : Str :=
  (l.reverse.dropWhile p).reverse

/-- Python str.strip(): remove leading and trailing whitespace. -/
def pyStrip (l : Str) : Str :=
  dropTrailing isPySpace (l.dropWhile isPySpace)

/-- Lowercase ASCII letters, the domain on which str.upper acts here. -/
def lowerChars : Str :=
  ['a', 'b', 'c', 'd', 'e', 'f', 'g', 'h', 'i', 'j', 'k', 'l', 'm',
   'n', 'o', 'p', 'q', 'r', 's', 't', 'u', 'v', 'w', 'x', 'y', 'z']

/-- Uppercase ASCII letters, the range of str.upper on letters. -/
def upperChars : Str :=
  ['A', 'B', 'C', 'D', 'E', 'F', 'G', 'H', 'I', 'J', 'K', 'L', 'M',
   'N', 'O', 'P', 'Q', 'R', 'S', 'T', 'U', 'V', 'W', 'X', 'Y', 'Z']

/-- Python str.upper on the ASCII letters (the only characters the OCR data
and the correction tables use). -/
def pyToUpper (c : Char) : Char :=
  if c = 'a' then 'A' else if c = 'b' then 'B' else if c = 'c' then 'C'
  else if c = 'd' then 'D' else if c = 'e' then 'E' else if c = 'f' then 'F'
  else if c = 'g' then 'G' else if c = 'h' then 'H' else if c = 'i' then 'I'
  else if c = 'j' then 'J' else if c = 'k' then 'K' else if c = 'l' then 'L'
  else if c = 'm' then 'M' else if c = 'n' then 'N' else if c = 'o' then 'O'
  else if c = 'p' then 'P' else if c = 'q' then 'Q' else if c = 'r' then 'R'
  else if c = 's' then 'S' else if c = 't' then 'T' else if c = 'u' then 'U'
  else if c = 'v' then 'V' else if c = 'w' then 'W' else if c = 'x' then 'X'
  else if c = 'y' then 'Y' else if c = 'z' then 'Z' else c

/-- Characters removed from the end of a token by the inner normalizer's
re.sub of the pattern matching a trailing run of colon, semicolon, comma, dot. -/
def isTrailPunct (c : Char) : Bool :=
  c = ':' ∨ c = ';' ∨ c = ',' ∨ c = '.'

/-- Effect of the inner normalizer's re.sub: remove the maximal trailing run
of colon, semicolon, comma, dot. -/
def rstripPunct (l : Str) : Str := dropTrailing isTrailPunct l

/-- Correction table of the inner normalize_seat_type (defined inside
extract_data_to_excel, source lines 239-248). -/
def innerCorrections (s : Str) : Option Str :=
  if s = "EWWS".toList then some "EWS".toList
  else if s = "NT10".toList then some "NT1O".toList
  else if s = "GNT10".toList then some "GNT1O".toList
  else if s = "NT20".toList then some "NT2O".toList
  else if s = "GNT20".toList then some "GNT2O".toList
  else if s = "NT30".toList then some "NT3O".toList
  else if s = "GNT30".toList then some "GNT3O".toList
  else if s = "LVJSS".toList then some "LVJS".toList
  else none

/-- Full-string match of NT, one digit, the digit zero: the core of the inner
normalizer's anchored regex. -/
def matchNTcore (t : Str) : Bool :=
  match t with
  | a :: b :: d :: z :: [] => a = 'N' ∧ b = 'T' ∧ d.isDigit ∧ z = '0'
  | _ => false

/-- Full-string match of the inner normalizer's anchored regex: optional G or
L, then NT, then one digit, then the digit zero. -/
def matchesGLNTd0 (t : Str) : Bool :=
  matchNTcore t ||
    ((t.headD ' ' = 'G' ∨ t.headD ' ' = 'L') && matchNTcore t.tail)

/-- The inner normalize_seat_type defined inside extract_data_to_excel
(source lines 237-253): strip, remove trailing punctuation, uppercase, apply
the correction table, apply the anchored GL-NT-digit-zero rewrite, otherwise
pass the token through stripped. -/
def normalize_seat_type_inner (t : Str) : Str :=
  let s := (rstripPunct (pyStrip t)).map pyToUpper
  match innerCorrections s with
  | some v => v
  | none => if matchesGLNTd0 s then s.dropLast ++ ['O'] else pyStrip s

/-- Effect of str.replace removing every colon, used by the module-level
normalize_seat_type. -/
def removeColons (l : Str) : Str := l.filter (fun c => ¬ (c = ':'))

/-- Correction table of the module-level normalize_seat_type
(source lines 190-201). -/
def moduleCorrections (s : Str) : Option Str :=
  if s = "EWWS".toList then some "EWS".toList
  else if s = "NT10".toList then some "NT1O".toList
  else if s = "GNT10".toList then some "GNT1O".toList
  else if s = "NT20".toList then some "NT2O".toList
  else if s = "GNT20".toList then some "GNT2O".toList
  else if s = "NT30".toList then some "NT3O".toList
  else if s = "GNT30".toList then some "GNT3O".toList
  else if s = "LVJSS".toList then some "LVJS".toList
  else if s = "GNT30,".toList then some "GNT3O".toList
  else if s = "LNT10".toList then some "LNT1O".toList
  else none

/-- Uppercase ASCII letter test, the regex class of capitals. -/
def isCap (c : Char) : Bool := decide ('A' ≤ c ∧ c ≤ 'Z')

/-- One to four capital letters followed by the digit zero, as a full-string
match. -/
def upTo4UpperThenZero (t : Str) : Bool :=
  decide (t.getLastD ' ' = '0') && decide (2 ≤ t.length ∧ t.length ≤ 5) &&
    (t.dropLast).all isCap

/-- Full-string match of the module-level anchored regex: optional G or L,
then one to four capital letters, then the digit zero. -/
def matchesGL4Zero (t : Str) : Bool :=
  upTo4UpperThenZero t ||
    ((t.headD ' ' = 'G' ∨ t.headD ' ' = 'L') && upTo4UpperThenZero t.tail)

/-- The module-level normalize_seat_type (source lines 188-205): remove
colons, uppercase, apply the correction table, then rewrite a trailing zero
when the anchored optional-GL one-to-four-capitals-zero regex matches. -/
def normalize_seat_type (t : Str) : Str :=
  let s := (removeColons t).map pyToUpper
  let c := (moduleCorrections s).getD s
  if matchesGL4Zero c then c.dropLast ++ ['O'] else c

/-! Line classifiers, embedding the regex searches of extract_data_to_excel. -/

/-- Attempt of the code-dash pattern at the head of the list: exactly k
digits, then space dash space, then a nonempty remainder (the lazy group up
to the end-of-line anchor captures the whole remainder). -/
def tryCodeDash (k : Nat) (l : Str) : Option (Str × Str) :=
  let code := l.take k
  let rest := l.drop k
  if code.length = k ∧ code.all Char.isDigit then
    match rest with
    | ' ' :: '-' :: ' ' :: r => if r ≠ [] then some (code, r) else none
    | _ => none
  else none

/-- Leftmost re.search of the code-dash pattern: k digits, space dash space,
nonempty remainder.  With k = 9 this is branch_pattern, with k = 4 the
digits-and-dash core of college_pattern. -/
def searchCodeDash (k : Nat) : Str → Option (Str × Str)
  | [] => none
  | c :: rest =>
    match tryCodeDash k (c :: rest) with
    | some x => some x
    | none => searchCodeDash k rest

/-- Split at the last comma whose suffix is nonempty and comma-free and whose
prefix is nonempty: the division of college_pattern's lazy name group and
optional district group produced by the regex backtracking. -/
def lastCommaSplit (l : Str) : Option (Str × Str) :=
  let revAfter := l.reverse.takeWhile (fun c => ¬ (c = ','))
  if revAfter.length = l.length then none
  else if revAfter.length = 0 then none
  else if l.length - revAfter.length - 1 = 0 then none
  else some (l.take (l.length - revAfter.length - 1), revAfter.reverse)

/-- College header extraction from one raw line: re.search of
college_pattern, yielding code, stripped institute name, and district
(the sentinel Unknown when the optional group is absent). -/
def collegeOfLine (l : Str) : Option (Str × Str × Str) :=
  match searchCodeDash 4 l with
  | none => none
  | some (code, rest) =>
    match lastCommaSplit rest with
    | some (namePart, distPart) => some (code, pyStrip namePart, pyStrip distPart)
    | none => some (code, pyStrip rest, "Unknown".toList)

/-- Multiline re.search of college_pattern over the page: the first line
containing a match. -/
def collegeFind : List Str → Option (Str × Str × Str)
  | [] => none
  | l :: ls =>
    match collegeOfLine l with
    | some x => some x
    | none => collegeFind ls

/-- Leftmost occurrence of the literal Status-colon-space prefix with a
nonempty remainder, within one line. -/
def statusOfLine : Str → Option Str
  | [] => none
  | c :: rest =>
    if ("Status: ".toList).isPrefixOf (c :: rest) ∧ (c :: rest).drop 8 ≠ [] then
      some ((c :: rest).drop 8)
    else statusOfLine rest

/-- Multiline re.search of status_pattern over the page: first line with a
match. -/
def statusFind : List Str → Option Str
  | [] => none
  | l :: ls =>
    match statusOfLine l with
    | some x => some x
    | none => statusFind ls

/-- The five literal section phrases of section_pattern, in alternation
order. -/
def sectionPhrases : List Str :=
  ["Home University Seats Allotted to Home University Candidates".toList,
   "Other Than Home University Seats Allotted to Other Than Home University Candidates".toList,
   "Home University Seats Allotted to Other Than Home University Candidates".toList,
   "Other Than Home University Seats Allotted to Home University Candidates".toList,
   "State Level".toList]

/-- First alternative of section_pattern matching at the head of the list. -/
def sectionAt (l : Str) : Option Str :=
  (sectionPhrases.find? (fun p => p.isPrefixOf l))

/-- Leftmost re.search of section_pattern within one line. -/
def sectionFind : Str → Option Str
  | [] => none
  | c :: rest =>
    match sectionAt (c :: rest) with
    | some s => some s
    | none => sectionFind rest

/-- Remainder captured by seat_type_pattern after the literal Stage: at
least one whitespace character, then the lazy group up to the end anchor.
When only whitespace follows, the regex backtracks so the group holds the
final whitespace character; a lone whitespace character cannot split. -/
def seatTypeAfter (l : Str) : Option Str :=
  let w := l.takeWhile isPySpace
  let rest := l.dropWhile isPySpace
  if w = [] then none
  else if rest ≠ [] then some rest
  else if 2 ≤ w.length then some [w.getLastD ' '] else none

/-- Leftmost re.search of seat_type_pattern within one line: the literal
Stage followed by whitespace and a captured remainder. -/
def seatTypeFind : Str → Option Str
  | [] => none
  | c :: cs =>
    if ("Stage".toList).isPrefixOf (c :: cs) then
      match seatTypeAfter ((c :: cs).drop 5) with
      | some g => some g
      | none => seatTypeFind cs
    else seatTypeFind cs

/-- Characters absorbed after the rank marker by the bracketed class of
rank_pattern: lowercase l, closing brace, whitespace. -/
def isRankRun (c : Char) : Bool :=
  c = 'l' ∨ c = Char.ofNat 125 ∨ isPySpace c

/-- Anchored re.search of rank_pattern: leading whitespace, one marker
character i, I or 1, a run of absorbed characters, then the captured
nonempty remainder (backtracking yields the last run character when the
remainder would be empty). -/
def rankFind (l : Str) : Option Str :=
  match l.dropWhile isPySpace with
  | [] => none
  | c :: rest =>
    if c = 'i' ∨ c = 'I' ∨ c = '1' then
      let run := rest.takeWhile isRankRun
      let rem := rest.dropWhile isRankRun
      if rem ≠ [] then some rem
      else if run ≠ [] then some [run.getLastD ' '] else none
    else none

/-- Characters allowed inside the percentile parentheses: digits, dot,
whitespace, parentheses. -/
def isPercChar (c : Char) : Bool :=
  c.isDigit ∨ c = '.' ∨ isPySpace c ∨ c = '(' ∨ c = ')'

/-- Anchored re.search of percentile_pattern: leading whitespace, an opening
parenthesis, a nonempty captured run of allowed characters, a closing
parenthesis at the end. -/
def percFind (l : Str) : Option Str :=
  match l.dropWhile isPySpace with
  | '(' :: rest =>
    if rest.getLastD ' ' = ')' ∧ 2 ≤ rest.length ∧ (rest.dropLast).all isPercChar then
      some rest.dropLast
    else none
  | _ => none

/-! Tokenisation helpers. -/

/-- Accumulator loop for splitWS: the first argument is the reversed current
token. -/
def splitWSAux : Str → Str → List Str
  | acc, [] => if acc = [] then [] else [acc.reverse]
  | acc, c :: rest =>
    if isPySpace c then
      if acc = [] then splitWSAux [] rest else acc.reverse :: splitWSAux [] rest
    else splitWSAux (c :: acc) rest

/-- Python str.split() with no argument: whitespace runs separate tokens,
empty tokens are dropped. -/
def splitWS (l : Str) : List Str := splitWSAux [] l

/-- Leftmost occurrence of a separator: the part before it and the part
after it. -/
def findSepSplit (sep : Str) : Str → Option (Str × Str)
  | [] => none
  | c :: rest =>
    if sep.isPrefixOf (c :: rest) then some ([], (c :: rest).drop sep.length)
    else
      match findSepSplit sep rest with
      | some (p, q) => some (c :: p, q)
      | none => none

/-- Python str.split(sep) for a nonempty separator, with explicit fuel. -/
def splitOnAux (sep : Str) : Nat → Str → List Str
  | 0, l => [l]
  | n + 1, l =>
    match findSepSplit sep l with
    | some (p, q) => p :: splitOnAux sep n q
    | none => [l]

/-- Python str.split(sep) for a nonempty separator. -/
def splitOnSep (sep : Str) (l : Str) : List Str :=
  splitOnAux sep l.length l

/-- Parenthesis characters, stripped from each percentile fragment. -/
def isParen (c : Char) : Bool := c = '(' ∨ c = ')'

/-- Python str.strip applied with the two parenthesis characters. -/
def stripParens (l : Str) : Str :=
  dropTrailing isParen (l.dropWhile isParen)

/-- First maximal digit run of a token: the head of re.findall of the
digit-run pattern. -/
def firstDigitRun : Str → Option Str
  | [] => none
  | c :: rest =>
    if c.isDigit then some (c :: rest.takeWhile Char.isDigit)
    else firstDigitRun rest

/-- The ocr_corrections dictionary for rank tokens (source lines 226-232). -/
def ocr_corrections (t : Str) : Str :=
  if t = "2m".toList then "201".toList
  else if t = "S77".toList then "577".toList
  else if t = "M6".toList then "346".toList
  else if t = "l\x7d".toList then []
  else if t = "il\x7d".toList then []
  else t

/-! The state machine of extract_data_to_excel. -/

/-- Page-scoped context extracted from the header lines before the line
loop starts (district, institute status, college code, institute name). -/
structure PageCtx where
  district : Str
  instituteStatus : Str
  collegeCode : Str
  instituteName : Str
deriving DecidableEq

/-- One emitted row of the output table. -/
structure Record where
  sr : Nat
  stage : Nat
  district : Str
  instituteStatus : Str
  collegeCode : Str
  instituteName : Str
  branchCode : Str
  branchName : Option Str
  seatType : Str
  rank : Str
  percentile : Option Str
deriving DecidableEq

/-- Mutable variables of the per-page line loop (source lines 280-287),
plus the document-global serial counter sr_no. -/
structure PageSt where
  branchCode : Option Str
  branchName : Option Str
  sectionLbl : Option Str
  baseSeatTypes : Option (List Str)
  seatTypes : Option (List Str)
  ranks : Option (List Str)
  percentiles : Option (List Str)
  stage : Nat
  srNo : Nat
deriving DecidableEq

/-- Initial per-page state: every context variable None, stage 1. -/
def initSt (sr : Nat) : PageSt :=
  { branchCode := none
    branchName := none
    sectionLbl := none
    baseSeatTypes := none
    seatTypes := none
    ranks := none
    percentiles := none
    stage := 1
    srNo := sr }

/-- Python truthiness of an optional string: set and nonempty. -/
def truthyS : Option Str → Bool
  | some s => s ≠ []
  | none => false

/-- Python truthiness of an optional list of strings: set and nonempty. -/
def truthyL : Option (List Str) → Bool
  | some l => l ≠ []
  | none => false

/-- The percentile picked for position j: percentiles[j] when the percentile
list is truthy and long enough, otherwise None. -/
def percAt (ps : Option (List Str)) (j : Nat) : Option Str :=
  match ps with
  | some l => if l ≠ [] ∧ j < l.length then some (l.getD j []) else none
  | none => none

/-- Emission loop of add_rows: enumerate the seat types with index j and
emit a record when j is below the rank-list length, incrementing the serial
number per emitted record. -/
def emitGo (ctx : PageCtx) (stage : Nat) (bc : Str) (bn : Option Str)
    (ps : Option (List Str)) (rs : List Str) :
    Nat → Nat → List Str → List Record × Nat
  | _, sr, [] => ([], sr)
  | j, sr, s :: sts =>
    if h : j < rs.length then
      let r : Record :=
        { sr := sr
          stage := stage
          district := ctx.district
          instituteStatus := ctx.instituteStatus
          collegeCode := ctx.collegeCode
          instituteName := ctx.instituteName
          branchCode := bc
          branchName := bn
          seatType := s
          rank := rs.get ⟨j, h⟩
          percentile := percAt ps j }
      let rec' := emitGo ctx stage bc bn ps rs (j + 1) (sr + 1) sts
      (r :: rec'.1, rec'.2)
    else emitGo ctx stage bc bn ps rs (j + 1) sr sts

/-- Warning logged when add_rows skips because seat types, ranks or the
branch code are missing. -/
def warnSkipRows : Str := "Skipping row addition: missing data".toList

/-- The nested add_rows function (source lines 289-301): when the seat-type
list, the rank list and the branch code are all truthy, emit one record per
seat type whose index is below the rank count; otherwise log a warning.
Returns the emitted records, the updated serial counter and the warnings. -/
def add_rows (ctx : PageCtx) (st : PageSt) : List Record × Nat × List Str :=
  match st.seatTypes, st.ranks, st.branchCode with
  | some sts, some rs, some bc =>
    if sts ≠ [] ∧ rs ≠ [] ∧ bc ≠ [] then
      let er := emitGo ctx st.stage bc st.branchName st.percentiles rs 0 st.srNo sts
      (er.1, er.2, [])
    else ([], st.srNo, [warnSkipRows])
  | _, _, _ => ([], st.srNo, [warnSkipRows])

/-- Warning logged per rank token from which no number could be extracted. -/
def warnNoNumber : Str := "Could not extract number from rank token".toList

/-- Rank-token loop of the rank-line branch (source lines 363-375): skip a
lone closing brace, apply ocr_corrections, skip tokens corrected to the
empty string, record the first digit run, or the corrected token itself
with a warning when it holds no digits. -/
def parseRankTokens : List Str → List Str × List Str
  | [] => ([], [])
  | t :: ts =>
    if t = "\x7d".toList then parseRankTokens ts
    else
      let c := ocr_corrections t
      if c = [] then parseRankTokens ts
      else
        let rest := parseRankTokens ts
        match firstDigitRun c with
        | some n => (n :: rest.1, rest.2)
        | none => (c :: rest.1, warnNoNumber :: rest.2)

/-- Backtracking scan of the rank-line branch (source lines 351-358), read
over the list of earlier raw lines in reverse order.  Python decrements the
scan index only inside the branch for a nonempty non-section non-percentile
line; reaching a line that fails that test therefore loops forever, which
this model reports as None.  Some None means the scan exhausted the earlier
lines, Some (Some b) that a Stage line supplied seat types b. -/
def backtrackSeatTypes : List Str → Option (Option (List Str))
  | [] => some none
  | p :: rest =>
    let pl := pyStrip p
    if pl ≠ [] ∧ sectionFind pl = none ∧ percFind pl = none then
      match seatTypeFind pl with
      | some g => some (some ((splitWS g).map normalize_seat_type_inner))
      | none => backtrackSeatTypes rest
    else none

/-- Warning logged when a rank line yields no rank tokens at all. -/
def warnFailedRanks : Str := "Failed to parse ranks from line".toList

/-- Warning logged when a rank line is parsed but no base seat types are
available. -/
def warnNoBase : Str := "No base seat types available, skipping row addition".toList

/-- One iteration of the while loop of extract_data_to_excel (source lines
303-398) on a stripped line, with the raw earlier lines (most recent first)
available for the rank-line backtracking.  Returns None when the Python
code would loop forever in the backtracking scan; otherwise the updated
state, the records emitted during this iteration and the warnings logged. -/
def stepLine (ctx : PageCtx) (prev : List Str) (rawLine : Str) (st : PageSt) :
    Option (PageSt × List Record × List Str) :=
  let line := pyStrip rawLine
  match searchCodeDash 9 line with
  | some (bc, bn) =>
    let ar := add_rows ctx st
    some ({ branchCode := some bc
            branchName := some bn
            sectionLbl := st.sectionLbl
            baseSeatTypes := none
            seatTypes := none
            ranks := none
            percentiles := none
            stage := 1
            srNo := ar.2.1 }, ar.1, ar.2.2)
  | none =>
  match sectionFind line with
  | some sec =>
    let ar := add_rows ctx st
    some ({ st with
            sectionLbl := some sec
            baseSeatTypes := none
            seatTypes := none
            ranks := none
            percentiles := none
            stage := 1
            srNo := ar.2.1 }, ar.1, ar.2.2)
  | none =>
  match seatTypeFind line with
  | some g =>
    let ar := add_rows ctx st
    let base := (splitWS g).map normalize_seat_type_inner
    some ({ st with
            baseSeatTypes := some base
            seatTypes := some base
            stage := 1
            srNo := ar.2.1 }, ar.1, ar.2.2)
  | none =>
  match rankFind line with
  | some g =>
    let doFlush := truthyL st.ranks ∧ truthyL st.seatTypes ∧ truthyS st.branchCode
    let ar := if doFlush then add_rows ctx st else ([], st.srNo, [])
    let stage1 := if doFlush then st.stage + 1 else st.stage
    let bt := if ¬ truthyL st.baseSeatTypes ∧ st.sectionLbl.isSome then
                backtrackSeatTypes prev
              else some none
    match bt with
    | none => none
    | some found =>
      let base1 := match found with
                   | some b => some b
                   | none => st.baseSeatTypes
      let pr := parseRankTokens (splitWS (pyStrip g))
      if pr.1 = [] then
        some ({ st with
                baseSeatTypes := base1
                ranks := none
                stage := stage1
                srNo := ar.2.1 },
              ar.1, ar.2.2 ++ pr.2 ++ [warnFailedRanks])
      else
        match base1 with
        | some b =>
          if b ≠ [] then
            some ({ st with
                    baseSeatTypes := base1
                    seatTypes := some (b.take pr.1.length)
                    ranks := some pr.1
                    stage := stage1
                    srNo := ar.2.1 },
                  ar.1, ar.2.2 ++ pr.2)
          else
            some ({ st with
                    baseSeatTypes := base1
                    ranks := some pr.1
                    stage := stage1
                    srNo := ar.2.1 },
                  ar.1, ar.2.2 ++ pr.2 ++ [warnNoBase])
        | none =>
          some ({ st with
                  baseSeatTypes := base1
                  ranks := some pr.1
                  stage := stage1
                  srNo := ar.2.1 },
                ar.1, ar.2.2 ++ pr.2 ++ [warnNoBase])
  | none =>
  match percFind line with
  | some mid =>
    let ps := (splitOnSep ") (".toList mid).map stripParens
    some ({ st with percentiles := some ps }, [], [])
  | none => some (st, [], [])

/-- The while loop over the lines of a page, followed by the final add_rows
call at the end of the page (source line 400).  The first list argument
holds the already-scanned raw lines, most recent first. -/
def procLines (ctx : PageCtx) : List Str → List Str → PageSt →
    Option (List Record × List Str × Nat)
  | _, [], st =>
    let ar := add_rows ctx st
    some (ar.1, ar.2.2, ar.2.1)
  | prev, l :: rest, st =>
    match stepLine ctx prev l st with
    | none => none
    | some (st', recs, ws) =>
      match procLines ctx (l :: prev) rest st' with
      | none => none
      | some (recs2, ws2, sr') => some (recs ++ recs2, ws ++ ws2, sr')

/-- Warning logged when a page holds no college header (source line 272). -/
def warnNoCollege : Str := "No college details found in page".toList

/-- Processing of one page (source lines 260-400): extract the college
header, or log a warning and contribute nothing; extract the status; then
run the line loop from the initial state.  A page is its list of raw
content lines; None reports divergence of the backtracking scan. -/
def processPage (sr : Nat) (lines : List Str) :
    Option (List Record × List Str × Nat) :=
  match collegeFind lines with
  | none => some ([], [warnNoCollege], sr)
  | some (code, name, dist) =>
    let ctx : PageCtx :=
      { district := dist
        instituteStatus := (statusFind lines).getD []
        collegeCode := code
        instituteName := name }
    procLines ctx [] lines (initSt sr)

/-- The document loop of extract_data_to_excel over its pages, threading the
serial counter and concatenating records and warnings in order. -/
def processDoc (sr : Nat) : List (List Str) → Option (List Record × List Str × Nat)
  | [] => some ([], [], sr)
  | p :: ps =>
    match processPage sr p with
    | none => none
    | some (rs, ws, sr') =>
      match processDoc sr' ps with
      | none => none
      | some (rs2, ws2, sr'') => some (rs ++ rs2, ws ++ ws2, sr'')

/-- The record extraction of extract_data_to_excel (source lines 207-420)
over a document given as a list of pages, each a list of raw content lines:
the serial counter starts at 1. -/
def extract_data_to_excel (pages : List (List Str)) :
    Option (List Record × List Str × Nat) :=
  processDoc 1 pages

/-- Default record used only as the fallback value of List.getD. -/
def dummyRecord : Record :=
  { sr := 0
    stage := 0
    district := []
    instituteStatus := []
    collegeCode := []
    instituteName := []
    branchCode := []
    branchName := none
    seatType := []
    rank := []
    percentile := none }

/-- Concrete page context used by the witness theorems. -/
def ctxW : PageCtx :=
  { district := "Pune".toList
    instituteStatus := "Government".toList
    collegeCode := "1234".toList
    instituteName := "Test College".toList }

/-- Concrete example page used by the witness theorems. -/
def pageE : List Str :=
  ["1234 - Test College, Pune".toList,
   "Status: Government".toList,
   "123456789 - Civil Engineering".toList,
   "State Level".toList,
   "Stage GOPEN LOPEN".toList,
   "i 100 200".toList,
   "(99.1) (98.2)".toList]

/-- First record the parser emits on pageE. -/
def recE1 : Record :=
  { sr := 1
    stage := 1
    district := "Pune".toList
    instituteStatus := "Government".toList
    collegeCode := "1234".toList
    instituteName := "Test College".toList
    branchCode := "123456789".toList
    branchName := some "Civil Engineering".toList
    seatType := "GOPEN".toList
    rank := "100".toList
    percentile := some "99.1".toList }

/-- Second record the parser emits on pageE. -/
def recE2 : Record :=
  { recE1 with
    sr := 2
    seatType := "LOPEN".toList
    rank := "200".toList
    percentile := some "98.2".toList }

/-- Records the parser emits on pageE. -/
def recsE : List Record := [recE1, recE2]

/-- Warnings the parser logs on pageE. -/
def wsE : List Str :=
  [warnNoNumber, warnNoNumber, warnNoNumber, warnNoNumber,
   warnNoBase, warnSkipRows, warnSkipRows, warnSkipRows]

/-- Concrete pending state with two seat types and one rank, for witnesses. -/
def stC1 : PageSt :=
  { branchCode := some "123456789".toList
    branchName := some "Civil Engineering".toList
    sectionLbl := none
    baseSeatTypes := some ["GOPEN".toList, "LOPEN".toList]
    seatTypes := some ["GOPEN".toList, "LOPEN".toList]
    ranks := some ["100".toList]
    percentiles := none
    stage := 1
    srNo := 7 }

/-- Concrete pending state holding ranks and percentiles, for the C2 counterexample. -/
def stC2 : PageSt :=
  { branchCode := some "123456789".toList
    branchName := some "Civil Engineering".toList
    sectionLbl := none
    baseSeatTypes := some ["GOPEN".toList]
    seatTypes := some ["GOPEN".toList]
    ranks := some ["100".toList]
    percentiles := some ["99.1".toList]
    stage := 1
    srNo := 5 }

/-- Concrete state with a branch and base seat types set, for the C6 evaluation. -/
def stC6 : PageSt :=
  { initSt 1 with
    branchCode := some "123456789".toList
    branchName := some "Civil Engineering".toList
    baseSeatTypes := some ["GOPEN".toList]
    seatTypes := some ["GOPEN".toList] }

/-- State the parser reaches from the initial state on the seven-digit code line, which it treats as a rank line. -/
def stC8 : PageSt :=
  { initSt 1 with
    ranks := some ["234567".toList, "-".toList, "Civil".toList,
                   "Engineering".toList] }

/-! Helper lemmas about the emission loop, the state machine and the
normalizer. -/

theorem emitGo_pairs (ctx : PageCtx) (stage : Nat) (bc : Str) (bn : Option Str)
    (ps : Option (List Str)) (rs : List Str) :
    ∀ (sts : List Str) (j sr : Nat),
      (emitGo ctx stage bc bn ps rs j sr sts).1.map (fun r => (r.seatType, r.rank))
        = sts.zip (rs.drop j)
  | [], j, sr => by simp [emitGo]
  | s :: sts, j, sr => by
    by_cases h : j < rs.length
    · rw [emitGo, dif_pos h]
      simp only [List.map_cons, List.zip_cons_cons, List.drop_eq_getElem_cons h]
      rw [emitGo_pairs ctx stage bc bn ps rs sts (j+1) (sr+1)]
      simp
    · rw [emitGo, dif_neg h]
      rw [emitGo_pairs ctx stage bc bn ps rs sts (j+1) sr]
      have h1 : rs.length ≤ j := Nat.le_of_not_lt h
      rw [List.drop_eq_nil_of_le h1, List.drop_eq_nil_of_le (Nat.le_succ_of_le h1)]
      simp

theorem emitGo_srNo (ctx : PageCtx) (stage : Nat) (bc : Str) (bn : Option Str)
    (ps : Option (List Str)) (rs : List Str) :
    ∀ (sts : List Str) (j sr : Nat),
      (emitGo ctx stage bc bn ps rs j sr sts).2
        = sr + (emitGo ctx stage bc bn ps rs j sr sts).1.length
  | [], j, sr => by simp [emitGo]
  | s :: sts, j, sr => by
    by_cases h : j < rs.length
    · rw [emitGo, dif_pos h]
      simp only [List.length_cons]
      rw [emitGo_srNo ctx stage bc bn ps rs sts (j+1) (sr+1)]
      omega
    · rw [emitGo, dif_neg h]
      exact emitGo_srNo ctx stage bc bn ps rs sts (j+1) sr

theorem emitGo_srs (ctx : PageCtx) (stage : Nat) (bc : Str) (bn : Option Str)
    (ps : Option (List Str)) (rs : List Str) :
    ∀ (sts : List Str) (j sr : Nat),
      (emitGo ctx stage bc bn ps rs j sr sts).1.map Record.sr
        = List.range' sr (emitGo ctx stage bc bn ps rs j sr sts).1.length
  | [], j, sr => by simp [emitGo]
  | s :: sts, j, sr => by
    by_cases h : j < rs.length
    · rw [emitGo, dif_pos h]
      simp only [List.map_cons, List.length_cons, List.range'_succ]
      rw [emitGo_srs ctx stage bc bn ps rs sts (j+1) (sr+1)]
    · rw [emitGo, dif_neg h]
      exact emitGo_srs ctx stage bc bn ps rs sts (j+1) sr

theorem emitGo_mem (ctx : PageCtx) (stage : Nat) (bc : Str) (bn : Option Str)
    (ps : Option (List Str)) (rs : List Str) :
    ∀ (sts : List Str) (j sr : Nat),
      ∀ r ∈ (emitGo ctx stage bc bn ps rs j sr sts).1,
        r.branchCode = bc ∧ r.branchName = bn ∧ r.stage = stage
  | [], j, sr => by simp [emitGo]
  | s :: sts, j, sr => by
    by_cases h : j < rs.length
    · rw [emitGo, dif_pos h]
      intro r hr
      rcases List.mem_cons.mp hr with h1 | h1
      · subst h1; exact ⟨rfl, rfl, rfl⟩
      · exact emitGo_mem ctx stage bc bn ps rs sts (j+1) (sr+1) r h1
    · rw [emitGo, dif_neg h]
      exact emitGo_mem ctx stage bc bn ps rs sts (j+1) sr

theorem add_rows_inv (ctx : PageCtx) (st : PageSt) :
    (add_rows ctx st).2.1 = st.srNo + (add_rows ctx st).1.length ∧
    (add_rows ctx st).1.map Record.sr = List.range' st.srNo (add_rows ctx st).1.length ∧
    ∀ r ∈ (add_rows ctx st).1, r.branchCode ≠ [] := by
  unfold add_rows
  split
  · rename_i sts rs bc h1 h2 h3
    split_ifs with hcond
    · refine ⟨?_, ?_, ?_⟩
      · simpa using emitGo_srNo ctx st.stage bc st.branchName st.percentiles rs sts 0 st.srNo
      · simpa using emitGo_srs ctx st.stage bc st.branchName st.percentiles rs sts 0 st.srNo
      · intro r hr
        simp only at hr
        have := emitGo_mem ctx st.stage bc st.branchName st.percentiles rs sts 0 st.srNo r hr
        rw [this.1]
        exact hcond.2.2
    · simp
  · simp

theorem add_rows_pairs (ctx : PageCtx) (st : PageSt)
    (sts rs : List Str) (bc : Str)
    (hs : st.seatTypes = some sts) (hr : st.ranks = some rs)
    (hb : st.branchCode = some bc)
    (hcond : sts ≠ [] ∧ rs ≠ [] ∧ bc ≠ []) :
    (add_rows ctx st).1.map (fun r => (r.seatType, r.rank)) = sts.zip rs := by
  unfold add_rows
  split
  · rename_i sts' rs' bc' h1 h2 h3
    rw [hs] at h1
    rw [hr] at h2
    rw [hb] at h3
    injection h1 with h1
    injection h2 with h2
    injection h3 with h3
    subst h1
    subst h2
    subst h3
    rw [if_pos hcond]
    simpa using emitGo_pairs ctx st.stage bc st.branchName st.percentiles rs sts 0 st.srNo
  · rename_i hcatch
    exact absurd hs (fun h => hcatch sts rs bc h hr hb)

theorem add_rows_length (ctx : PageCtx) (st : PageSt)
    (sts rs : List Str) (bc : Str)
    (hs : st.seatTypes = some sts) (hr : st.ranks = some rs)
    (hb : st.branchCode = some bc)
    (hne : sts ≠ [] ∧ rs ≠ [] ∧ bc ≠ []) :
    (add_rows ctx st).1.length = min sts.length rs.length := by
  have hp := add_rows_pairs ctx st sts rs bc hs hr hb hne
  have h2 := congrArg List.length hp
  simpa using h2

theorem add_rows_mem_bc (ctx : PageCtx) (st : PageSt)
    (sts rs : List Str) (bc : Str)
    (hs : st.seatTypes = some sts) (hr : st.ranks = some rs)
    (hb : st.branchCode = some bc)
    (hne : sts ≠ [] ∧ rs ≠ [] ∧ bc ≠ []) :
    ∀ r ∈ (add_rows ctx st).1, r.branchCode = bc ∧ r.branchName = st.branchName := by
  unfold add_rows
  split
  · rename_i sts' rs' bc' h1 h2 h3
    rw [hs] at h1
    rw [hr] at h2
    rw [hb] at h3
    injection h1 with h1
    injection h2 with h2
    injection h3 with h3
    subst h1
    subst h2
    subst h3
    rw [if_pos hne]
    intro r hmem
    have hm := emitGo_mem ctx st.stage bc st.branchName st.percentiles rs sts 0 st.srNo r
      (by simpa using hmem)
    exact ⟨hm.1, hm.2.1⟩
  · rename_i hcatch
    exact absurd hs (fun hcontra => hcatch sts rs bc hcontra hr hb)

theorem stepLine_inv (ctx : PageCtx) (prev : List Str) (rawLine : Str)
    (st st' : PageSt) (recs : List Record) (ws : List Str)
    (h : stepLine ctx prev rawLine st = some (st', recs, ws)) :
    st'.srNo = st.srNo + recs.length ∧
    recs.map Record.sr = List.range' st.srNo recs.length ∧
    ∀ r ∈ recs, r.branchCode ≠ [] := by
  obtain ⟨e1, e2, e3⟩ := add_rows_inv ctx st
  simp only [stepLine] at h
  split at h
  all_goals try split at h
  all_goals try split at h
  all_goals try split at h
  all_goals try split at h
  all_goals try split at h
  all_goals try split at h
  all_goals try split at h
  all_goals try split at h
  all_goals try (exact Option.noConfusion h)
  all_goals
    simp only [Option.some.injEq, Prod.mk.injEq] at h
    obtain ⟨hA, hB, hC⟩ := h
    subst hA
    subst hB
    subst hC
    first
      | exact ⟨e1, e2, e3⟩
      | exact ⟨by simp, by simp, by simp⟩
      | (rcases Decidable.em (truthyL st.ranks = true ∧ truthyL st.seatTypes = true ∧
            truthyS st.branchCode = true) with hf | hf
         · simp only [if_pos hf]
           exact ⟨e1, e2, e3⟩
         · simp only [if_neg hf]
           exact ⟨by simp, by simp, by simp⟩)

theorem procLines_inv (ctx : PageCtx) :
    ∀ (rest prev : List Str) (st : PageSt) (recs : List Record)
      (ws : List Str) (sr' : Nat),
      procLines ctx prev rest st = some (recs, ws, sr') →
      sr' = st.srNo + recs.length ∧
      recs.map Record.sr = List.range' st.srNo recs.length ∧
      ∀ r ∈ recs, r.branchCode ≠ []
  | [], prev, st, recs, ws, sr', h => by
    obtain ⟨e1, e2, e3⟩ := add_rows_inv ctx st
    simp only [procLines, Option.some.injEq, Prod.mk.injEq] at h
    obtain ⟨hA, hB, hC⟩ := h
    subst hA
    subst hB
    subst hC
    exact ⟨e1.symm ▸ e1, e2, e3⟩
  | l :: rest, prev, st, recs, ws, sr', h => by
    simp only [procLines] at h
    split at h
    · exact Option.noConfusion h
    · rename_i st1 recs1 ws1 hs
      split at h
      · exact Option.noConfusion h
      · rename_i recs2 ws2 sr2 hp
        simp only [Option.some.injEq, Prod.mk.injEq] at h
        obtain ⟨hA, hB, hC⟩ := h
        subst hA
        subst hB
        subst hC
        obtain ⟨s1, s2, s3⟩ := stepLine_inv ctx prev l st st1 recs1 ws1 hs
        obtain ⟨p1, p2, p3⟩ := procLines_inv ctx rest (l :: prev) st1 recs2 ws2 sr2 hp
        refine ⟨?_, ?_, ?_⟩
        · rw [p1, s1, List.length_append]
          omega
        · rw [List.map_append, s2, p2, s1, List.length_append]
          have ha := List.range'_append st.srNo recs1.length recs2.length 1
          simp only [one_mul] at ha
          rw [Nat.add_comm recs1.length recs2.length]
          exact ha
        · intro r hr
          rcases List.mem_append.mp hr with h1 | h1
          · exact s3 r h1
          · exact p3 r h1

theorem processPage_inv (sr : Nat) (lines : List Str) (recs : List Record)
    (ws : List Str) (sr' : Nat) (h : processPage sr lines = some (recs, ws, sr')) :
    sr' = sr + recs.length ∧
    recs.map Record.sr = List.range' sr recs.length ∧
    ∀ r ∈ recs, r.branchCode ≠ [] := by
  unfold processPage at h
  split at h
  · simp only [Option.some.injEq, Prod.mk.injEq] at h
    obtain ⟨hA, hB, hC⟩ := h
    subst hA
    subst hB
    subst hC
    exact ⟨by simp, by simp, by simp⟩
  · rename_i code name dist hc
    exact procLines_inv _ lines [] (initSt sr) recs ws sr' h

theorem processDoc_inv :
    ∀ (pages : List (List Str)) (sr : Nat) (recs : List Record)
      (ws : List Str) (sr' : Nat),
      processDoc sr pages = some (recs, ws, sr') →
      sr' = sr + recs.length ∧
      recs.map Record.sr = List.range' sr recs.length ∧
      ∀ r ∈ recs, r.branchCode ≠ []
  | [], sr, recs, ws, sr', h => by
    simp only [processDoc, Option.some.injEq, Prod.mk.injEq] at h
    obtain ⟨hA, hB, hC⟩ := h
    subst hA
    subst hB
    subst hC
    exact ⟨by simp, by simp, by simp⟩
  | p :: ps, sr, recs, ws, sr', h => by
    simp only [processDoc] at h
    split at h
    · exact Option.noConfusion h
    · rename_i recs1 ws1 sr1 hpg
      split at h
      · exact Option.noConfusion h
      · rename_i recs2 ws2 sr2 hdoc
        simp only [Option.some.injEq, Prod.mk.injEq] at h
        obtain ⟨hA, hB, hC⟩ := h
        subst hA
        subst hB
        subst hC
        obtain ⟨s1, s2, s3⟩ := processPage_inv sr p recs1 ws1 sr1 hpg
        obtain ⟨p1, p2, p3⟩ := processDoc_inv ps sr1 recs2 ws2 sr2 hdoc
        refine ⟨?_, ?_, ?_⟩
        · rw [p1, s1, List.length_append]
          omega
        · rw [List.map_append, s2, p2, s1, List.length_append]
          have ha := List.range'_append sr recs1.length recs2.length 1
          simp only [one_mul] at ha
          rw [Nat.add_comm recs1.length recs2.length]
          exact ha
        · intro r hr
          rcases List.mem_append.mp hr with h1 | h1
          · exact s3 r h1
          · exact p3 r h1

theorem tryCodeDash_spec (k : Nat) (l code rest : Str)
    (h : tryCodeDash k l = some (code, rest)) :
    code.length = k ∧ code.all Char.isDigit = true ∧ rest ≠ [] := by
  simp only [tryCodeDash] at h
  split_ifs at h with hg
  split at h
  · rename_i r hshape
    split_ifs at h with hr
    simp only [Option.some.injEq, Prod.mk.injEq] at h
    obtain ⟨h1, h2⟩ := h
    subst h1
    subst h2
    exact ⟨hg.1, by simpa using hg.2, hr⟩
  · exact Option.noConfusion h

theorem searchCodeDash_spec :
    ∀ (l code rest : Str), searchCodeDash 9 l = some (code, rest) →
      code.length = 9 ∧ code.all Char.isDigit = true ∧ rest ≠ []
  | [], code, rest, h => by simp [searchCodeDash] at h
  | c :: l, code, rest, h => by
    simp only [searchCodeDash] at h
    split at h
    · rename_i x hx
      simp only [Option.some.injEq] at h
      subst h
      exact tryCodeDash_spec 9 (c :: l) code rest hx
    · exact searchCodeDash_spec l code rest h

theorem stepLine_keeps_branch (ctx : PageCtx) (prev : List Str) (rawLine : Str)
    (st st' : PageSt) (recs : List Record) (ws : List Str)
    (hno : searchCodeDash 9 (pyStrip rawLine) = none)
    (h : stepLine ctx prev rawLine st = some (st', recs, ws)) :
    st'.branchCode = st.branchCode := by
  simp only [stepLine, hno] at h
  split at h
  all_goals try split at h
  all_goals try split at h
  all_goals try split at h
  all_goals try split at h
  all_goals try split at h
  all_goals try split at h
  all_goals try (exact Option.noConfusion h)
  all_goals
    simp only [Option.some.injEq, Prod.mk.injEq] at h
    obtain ⟨hA, hB, hC⟩ := h
    subst hA
    rfl

theorem digitCases (c : Char) (h : c.isDigit = true) :
    c = '0' ∨ c = '1' ∨ c = '2' ∨ c = '3' ∨ c = '4' ∨ c = '5' ∨
    c = '6' ∨ c = '7' ∨ c = '8' ∨ c = '9' := by
  simp only [Char.isDigit, Bool.and_eq_true, decide_eq_true_eq] at h
  obtain ⟨h1, h2⟩ := h
  have hv1 : 48 ≤ c.toNat := h1
  have hv2 : c.toNat ≤ 57 := h2
  have hc : Char.ofNat c.toNat = c := Char.ofNat_toNat c
  interval_cases hn : c.toNat <;> rw [← hc] <;> decide

theorem matchNTcore_shape (t : Str) (h : matchNTcore t = true) :
    ∃ d, d.isDigit = true ∧ t = ['N', 'T', d, '0'] := by
  rcases t with _ | ⟨a, _ | ⟨b, _ | ⟨d, _ | ⟨z, _ | ⟨e, rest⟩⟩⟩⟩⟩ <;>
    simp only [matchNTcore, decide_eq_true_eq] at h
  all_goals try exact Bool.noConfusion h
  obtain ⟨h1, h2, h3, h4⟩ := h
  subst h1
  subst h2
  subst h4
  exact ⟨d, h3, rfl⟩

theorem matchesGLNTd0_shape (t : Str) (h : matchesGLNTd0 t = true) :
    (∃ d, d.isDigit = true ∧ t = ['N', 'T', d, '0']) ∨
    (∃ g d, (g = 'G' ∨ g = 'L') ∧ d.isDigit = true ∧ t = [g, 'N', 'T', d, '0']) := by
  unfold matchesGLNTd0 at h
  rw [Bool.or_eq_true] at h
  rcases h with h1 | h2
  · exact Or.inl (matchNTcore_shape t h1)
  · rw [Bool.and_eq_true] at h2
    obtain ⟨hg, hcore⟩ := h2
    obtain ⟨d, hd, hrest⟩ := matchNTcore_shape t.tail hcore
    rcases t with _ | ⟨c, rest⟩
    · simp at hrest
    · right
      simp only [List.headD_cons, decide_eq_true_eq] at hg
      simp only [List.tail_cons] at hrest
      subst hrest
      exact ⟨c, d, hg, hd, rfl⟩

theorem pyToUpper_fix_of_not_lower (c : Char) (hc : ¬ c ∈ lowerChars) :
    pyToUpper c = c := by
  have hla : ¬ (c = 'a') := fun hq => hc (by rw [hq]; decide)
  have hlb : ¬ (c = 'b') := fun hq => hc (by rw [hq]; decide)
  have hlc : ¬ (c = 'c') := fun hq => hc (by rw [hq]; decide)
  have hld : ¬ (c = 'd') := fun hq => hc (by rw [hq]; decide)
  have hle : ¬ (c = 'e') := fun hq => hc (by rw [hq]; decide)
  have hlf : ¬ (c = 'f') := fun hq => hc (by rw [hq]; decide)
  have hlg : ¬ (c = 'g') := fun hq => hc (by rw [hq]; decide)
  have hlh : ¬ (c = 'h') := fun hq => hc (by rw [hq]; decide)
  have hli : ¬ (c = 'i') := fun hq => hc (by rw [hq]; decide)
  have hlj : ¬ (c = 'j') := fun hq => hc (by rw [hq]; decide)
  have hlk : ¬ (c = 'k') := fun hq => hc (by rw [hq]; decide)
  have hll : ¬ (c = 'l') := fun hq => hc (by rw [hq]; decide)
  have hlm : ¬ (c = 'm') := fun hq => hc (by rw [hq]; decide)
  have hln : ¬ (c = 'n') := fun hq => hc (by rw [hq]; decide)
  have hlo : ¬ (c = 'o') := fun hq => hc (by rw [hq]; decide)
  have hlp : ¬ (c = 'p') := fun hq => hc (by rw [hq]; decide)
  have hlq : ¬ (c = 'q') := fun hq => hc (by rw [hq]; decide)
  have hlr : ¬ (c = 'r') := fun hq => hc (by rw [hq]; decide)
  have hls : ¬ (c = 's') := fun hq => hc (by rw [hq]; decide)
  have hlt : ¬ (c = 't') := fun hq => hc (by rw [hq]; decide)
  have hlu : ¬ (c = 'u') := fun hq => hc (by rw [hq]; decide)
  have hlv : ¬ (c = 'v') := fun hq => hc (by rw [hq]; decide)
  have hlw : ¬ (c = 'w') := fun hq => hc (by rw [hq]; decide)
  have hlx : ¬ (c = 'x') := fun hq => hc (by rw [hq]; decide)
  have hly : ¬ (c = 'y') := fun hq => hc (by rw [hq]; decide)
  have hlz : ¬ (c = 'z') := fun hq => hc (by rw [hq]; decide)
  unfold pyToUpper
  rw [if_neg hla, if_neg hlb, if_neg hlc, if_neg hld, if_neg hle, if_neg hlf, if_neg hlg, if_neg hlh, if_neg hli, if_neg hlj, if_neg hlk, if_neg hll, if_neg hlm, if_neg hln, if_neg hlo, if_neg hlp, if_neg hlq, if_neg hlr, if_neg hls, if_neg hlt, if_neg hlu, if_neg hlv, if_neg hlw, if_neg hlx, if_neg hly, if_neg hlz]

theorem pyToUpper_cases (c : Char) :
    pyToUpper c = c ∨ (c ∈ lowerChars ∧ pyToUpper c ∈ upperChars) := by
  by_cases hc : c ∈ lowerChars
  · right
    refine ⟨hc, ?_⟩
    simp only [lowerChars, List.mem_cons, List.not_mem_nil, or_false] at hc
    rcases hc with rfl | rfl | rfl | rfl | rfl | rfl | rfl | rfl | rfl | rfl | rfl |
      rfl | rfl | rfl | rfl | rfl | rfl | rfl | rfl | rfl | rfl | rfl | rfl | rfl |
      rfl | rfl <;> decide
  · left
    exact pyToUpper_fix_of_not_lower c hc

theorem pyToUpper_upper_fix : ∀ x ∈ upperChars, pyToUpper x = x := by decide

theorem pyToUpper_idem (c : Char) : pyToUpper (pyToUpper c) = pyToUpper c := by
  rcases pyToUpper_cases c with h | ⟨hc, hu⟩
  · rw [h]
    exact h
  · exact pyToUpper_upper_fix _ hu

theorem isPySpace_pyToUpper (c : Char) : isPySpace (pyToUpper c) = isPySpace c := by
  rcases pyToUpper_cases c with h | ⟨hc, hu⟩
  · rw [h]
  · have h1 : isPySpace (pyToUpper c) = false := by
      revert hu
      generalize pyToUpper c = x
      revert x
      decide
    have h2 : isPySpace c = false := by
      revert hc
      generalize c = x  
      revert x
      decide
    rw [h1, h2]

theorem isTrailPunct_pyToUpper (c : Char) : isTrailPunct (pyToUpper c) = isTrailPunct c := by
  rcases pyToUpper_cases c with h | ⟨hc, hu⟩
  · rw [h]
  · have h1 : isTrailPunct (pyToUpper c) = false := by
      revert hu
      generalize pyToUpper c = x
      revert x
      decide
    have h2 : isTrailPunct c = false := by
      revert hc
      generalize c = x
      revert x
      decide
    rw [h1, h2]

theorem mem_of_head?_eq (l : Str) (c : Char) (h : l.head? = some c) : c ∈ l := by
  cases l with
  | nil => simp at h
  | cons a l =>
    simp only [List.head?_cons, Option.some.injEq] at h
    subst h
    exact List.mem_cons_self a l

theorem dropWhile_eq_self_of_head (p : Char → Bool) (l : Str)
    (h : ∀ c, l.head? = some c → p c = false) : l.dropWhile p = l := by
  cases l with
  | nil => rfl
  | cons a l => rw [List.dropWhile_cons_of_neg (by simp [h a rfl])]

theorem head?_dropWhile (p : Char → Bool) :
    ∀ (l : Str) (c : Char), (l.dropWhile p).head? = some c → p c = false
  | [], c, h => by simp at h
  | a :: l, c, h => by
    by_cases hp : p a = true
    · rw [List.dropWhile_cons_of_pos hp] at h
      exact head?_dropWhile p l c h
    · rw [List.dropWhile_cons_of_neg hp] at h
      simp only [List.head?_cons, Option.some.injEq] at h
      subst h
      simpa using hp

theorem mem_of_mem_dropWhile (p : Char → Bool) (l : Str) (c : Char)
    (h : c ∈ l.dropWhile p) : c ∈ l :=
  (List.dropWhile_sublist p).mem h

theorem mem_of_mem_pyStrip (l : Str) (c : Char) (h : c ∈ pyStrip l) : c ∈ l := by
  unfold pyStrip dropTrailing at h
  have h1 := List.mem_reverse.mp h
  have h2 := mem_of_mem_dropWhile _ _ _ h1
  have h3 := List.mem_reverse.mp h2
  exact mem_of_mem_dropWhile _ _ _ h3

theorem mem_of_mem_rstripPunct (l : Str) (c : Char) (h : c ∈ rstripPunct l) : c ∈ l := by
  unfold rstripPunct dropTrailing at h
  have h1 := List.mem_reverse.mp h
  have h2 := mem_of_mem_dropWhile _ _ _ h1
  exact List.mem_reverse.mp h2

theorem pyStrip_eq_self (l : Str) (h : ∀ c ∈ l, isPySpace c = false) : pyStrip l = l := by
  unfold pyStrip dropTrailing
  rw [dropWhile_eq_self_of_head _ _
    (fun c hc => h c (mem_of_head?_eq _ _ hc))]
  rw [dropWhile_eq_self_of_head _ _
    (fun c hc => h c (List.mem_reverse.mp (mem_of_head?_eq _ _ hc)))]
  exact List.reverse_reverse l

theorem rstripPunct_eq_self (l : Str)
    (h : ∀ c, l.getLast? = some c → isTrailPunct c = false) : rstripPunct l = l := by
  unfold rstripPunct dropTrailing
  rw [dropWhile_eq_self_of_head _ _
    (fun c hc => h c (by rwa [List.head?_reverse] at hc))]
  exact List.reverse_reverse l

theorem getLast?_rstripPunct (l : Str) (c : Char)
    (h : (rstripPunct l).getLast? = some c) : isTrailPunct c = false := by
  unfold rstripPunct dropTrailing at h
  rw [List.getLast?_reverse] at h
  exact head?_dropWhile _ _ _ h

theorem map_pyToUpper_idem (l : Str) :
    (l.map pyToUpper).map pyToUpper = l.map pyToUpper := by
  induction l with
  | nil => rfl
  | cons a l ih => simp [pyToUpper_idem, ih]

theorem innerCorrections_values (s v : Str) (h : innerCorrections s = some v) :
    v = "EWS".toList ∨ v = "NT1O".toList ∨ v = "GNT1O".toList ∨ v = "NT2O".toList ∨
    v = "GNT2O".toList ∨ v = "NT3O".toList ∨ v = "GNT3O".toList ∨ v = "LVJS".toList := by
  unfold innerCorrections at h
  split_ifs at h <;> simp_all

/-- Shape of a full match of the one-to-four-capitals-then-zero core: the
last character is the digit zero and every earlier character is a capital. -/
theorem up4_shape (t : Str) (h : upTo4UpperThenZero t = true) :
    t.getLast? = some '0' ∧ 2 ≤ t.length ∧ ∀ c ∈ t.dropLast, isCap c = true := by
  unfold upTo4UpperThenZero at h
  simp only [Bool.and_eq_true, decide_eq_true_eq, List.all_eq_true] at h
  obtain ⟨⟨h1, h2⟩, h3⟩ := h
  rcases hG : t.getLast? with _ | c
  · rw [List.getLast?_eq_none_iff] at hG
    subst hG
    simp at h2
  · rw [List.getLastD_eq_getLast?, hG] at h1
    simp only [Option.getD_some] at h1
    subst h1
    exact ⟨rfl, h2.1, h3⟩

/-- Shape of a full match of the module-level wide regex: the last character
is the digit zero and every earlier character is a capital. -/
theorem GL4_shape (t : Str) (h : matchesGL4Zero t = true) :
    t.getLast? = some '0' ∧ ∀ c ∈ t.dropLast, isCap c = true := by
  unfold matchesGL4Zero at h
  rw [Bool.or_eq_true] at h
  rcases h with h1 | h2
  · obtain ⟨e1, _, e3⟩ := up4_shape t h1
    exact ⟨e1, e3⟩
  · rw [Bool.and_eq_true] at h2
    obtain ⟨hg, hcore⟩ := h2
    rcases t with _ | ⟨c, rest⟩
    · simp [List.headD] at hg
    · simp only [List.headD_cons, decide_eq_true_eq] at hg
      simp only [List.tail_cons] at hcore
      obtain ⟨e1, e2, e3⟩ := up4_shape rest hcore
      rcases rest with _ | ⟨r, rr⟩
      · simp at e2
      · refine ⟨by rw [List.getLast?_cons_cons]; exact e1, ?_⟩
        intro x hx
        rw [show (c :: r :: rr).dropLast = c :: (r :: rr).dropLast from rfl] at hx
        rcases List.mem_cons.mp hx with rfl | hx2
        · rcases hg with rfl | rfl <;> decide
        · exact e3 x hx2

/-- Capital letters are not among the lowercase letters. -/
theorem isCap_not_lower (c : Char) (h : isCap c = true) : ¬ c ∈ lowerChars := by
  intro hmem
  have hall : ∀ x ∈ lowerChars, isCap x = false := by decide
  rw [hall c hmem] at h
  exact Bool.noConfusion h

/-- Capital letters are not whitespace. -/
theorem isCap_not_space (c : Char) (h : isCap c = true) : isPySpace c = false := by
  cases hsp : isPySpace c
  · rfl
  · unfold isPySpace at hsp
    rw [decide_eq_true_eq] at hsp
    rcases hsp with rfl | rfl | rfl | rfl | rfl | rfl <;> exact absurd h (by decide)

/-- Capital letters are not trailing punctuation. -/
theorem isCap_not_punct (c : Char) (h : isCap c = true) : isTrailPunct c = false := by
  cases hsp : isTrailPunct c
  · rfl
  · unfold isTrailPunct at hsp
    rw [decide_eq_true_eq] at hsp
    rcases hsp with rfl | rfl | rfl | rfl <;> exact absurd h (by decide)

/-- The uppercase map fixes capital letters. -/
theorem isCap_pyToUpper_fix (c : Char) (h : isCap c = true) : pyToUpper c = c :=
  pyToUpper_fix_of_not_lower c (isCap_not_lower c h)

/-- Mapping the uppercase function over a list it fixes pointwise is the
identity. -/
theorem map_pyToUpper_eq_self (l : Str) (h : ∀ c ∈ l, pyToUpper c = c) :
    l.map pyToUpper = l := by
  induction l with
  | nil => rfl
  | cons a l ih =>
    simp only [List.map_cons]
    rw [h a (List.mem_cons_self a l), ih (fun c hc => h c (List.mem_cons_of_mem a hc))]

/-- The inner correction table hits only its eight literal keys. -/
theorem innerCorrections_keys (s v : Str) (h : innerCorrections s = some v) :
    s = "EWWS".toList ∨ s = "NT10".toList ∨ s = "GNT10".toList ∨
    s = "NT20".toList ∨ s = "GNT20".toList ∨ s = "NT30".toList ∨
    s = "GNT30".toList ∨ s = "LVJSS".toList := by
  unfold innerCorrections at h
  split_ifs at h <;> simp_all

/-- A token matching the wide optional-GL up-to-four-capitals-zero shape but
not the narrow GL-NT-digit-zero shape passes through the inner normalizer
unchanged: no trailing-zero rewrite happens outside the narrow shape. -/
theorem normalize_inner_wide_not_narrow (t : Str)
    (hw : matchesGL4Zero t = true) (hn : matchesGLNTd0 t = false) :
    normalize_seat_type_inner t = t := by
  obtain ⟨hlast, hcaps⟩ := GL4_shape t hw
  have hne : t ≠ [] := by
    intro hcon
    rw [hcon] at hlast
    simp at hlast
  have hdec := List.dropLast_append_getLast hne
  have hlast' : t.getLast hne = '0' := by
    have hq := List.getLast?_eq_getLast t hne
    rw [hq] at hlast
    injection hlast with hlast
  have hmem : ∀ c ∈ t, isCap c = true ∨ c = '0' := by
    intro c hc
    rw [← hdec] at hc
    rcases List.mem_append.mp hc with h1 | h1
    · exact Or.inl (hcaps c h1)
    · simp only [List.mem_singleton] at h1
      subst h1
      exact Or.inr hlast'
  have hws : ∀ c ∈ t, isPySpace c = false := by
    intro c hc
    rcases hmem c hc with h1 | rfl
    · exact isCap_not_space c h1
    · decide
  have hstrip : pyStrip t = t := pyStrip_eq_self t hws
  have hpunct : rstripPunct t = t := by
    apply rstripPunct_eq_self
    intro c hcc
    rw [hlast] at hcc
    injection hcc with hcc
    subst hcc
    decide
  have hup : t.map pyToUpper = t := by
    apply map_pyToUpper_eq_self
    intro c hc
    rcases hmem c hc with h1 | rfl
    · exact isCap_pyToUpper_fix c h1
    · decide
  have hpre : (rstripPunct (pyStrip t)).map pyToUpper = t := by
    rw [hstrip, hpunct, hup]
  have hcor : innerCorrections t = none := by
    rcases hcc : innerCorrections t with _ | v
    · rfl
    · exfalso
      rcases innerCorrections_keys t v hcc with rfl | rfl | rfl | rfl | rfl | rfl |
        rfl | rfl
      · exact absurd hw (by decide)
      · exact absurd hn (by decide)
      · exact absurd hn (by decide)
      · exact absurd hn (by decide)
      · exact absurd hn (by decide)
      · exact absurd hn (by decide)
      · exact absurd hn (by decide)
      · exact absurd hw (by decide)
  simp only [normalize_seat_type_inner, hpre, hcor, hn, Bool.false_eq_true, if_false]
  exact hstrip

/-! Claim theorems, with their witnesses and counterexamples. -/

/-- C1: for every flush of a PendingRow that has a non-empty seat-type list, a
non-empty rank list and a branch code set, the number of records emitted by
add_rows equals min(len(seat_types), len(ranks)), and the j-th emitted record
carries seat type seat_types[j] and rank ranks[j]. -/
theorem C1_flush_positional (ctx : PageCtx) (st : PageSt)
    (sts rs : List Str) (bc : Str)
    (hs : st.seatTypes = some sts) (hr : st.ranks = some rs)
    (hb : st.branchCode = some bc)
    (hne : sts ≠ [] ∧ rs ≠ [] ∧ bc ≠ []) :
    (add_rows ctx st).1.length = min sts.length rs.length ∧
    ∀ j : Nat, j < (add_rows ctx st).1.length →
      ((add_rows ctx st).1.getD j dummyRecord).seatType = sts.getD j [] ∧
      ((add_rows ctx st).1.getD j dummyRecord).rank = rs.getD j [] := by
  have hp := add_rows_pairs ctx st sts rs bc hs hr hb hne
  have hlen : (add_rows ctx st).1.length = min sts.length rs.length := by
    have h2 := congrArg List.length hp
    simpa using h2
  refine ⟨hlen, ?_⟩
  intro j hj
  have hj1 : j < sts.length := lt_of_lt_of_le (hlen ▸ hj) (min_le_left _ _)
  have hj2 : j < rs.length := lt_of_lt_of_le (hlen ▸ hj) (min_le_right _ _)
  have hjm : j < ((add_rows ctx st).1.map (fun r => (r.seatType, r.rank))).length := by
    simpa using hj
  have hq := List.getElem_of_eq hp hjm
  rw [List.getElem_map] at hq
  rw [List.getElem_zip] at hq
  rw [List.getD_eq_getElem _ dummyRecord hj, List.getD_eq_getElem _ [] hj1,
    List.getD_eq_getElem _ [] hj2]
  exact ⟨congrArg Prod.fst hq, congrArg Prod.snd hq⟩

/-- Witness for C1 at a concrete state with seat types GOPEN, LOPEN and the
single rank 100: one record is emitted, pairing GOPEN with 100. -/
theorem C1_witness :
    (add_rows ctxW stC1).1.length
        = min ["GOPEN".toList, "LOPEN".toList].length ["100".toList].length ∧
    ∀ j : Nat, j < (add_rows ctxW stC1).1.length →
      ((add_rows ctxW stC1).1.getD j dummyRecord).seatType
          = ["GOPEN".toList, "LOPEN".toList].getD j [] ∧
      ((add_rows ctxW stC1).1.getD j dummyRecord).rank
          = ["100".toList].getD j [] :=
  C1_flush_positional ctxW stC1 ["GOPEN".toList, "LOPEN".toList] ["100".toList]
    "123456789".toList rfl rfl rfl (by decide)

/-- Counterexample to C2 as stated: a seat-type-row line that triggers a flush
of a PendingRow holding ranks and percentiles leaves both lists in place, so
the PendingRow is not cleared entirely. -/
theorem C2_counterexample :
    (stepLine ctxW [] "Stage LOPEN GOPEN".toList stC2).map
        (fun x => (x.1.ranks, x.1.percentiles))
      = some (some ["100".toList], some ["99.1".toList]) ∧
    ¬ (stepLine ctxW [] "Stage LOPEN GOPEN".toList stC2).map (fun x => x.1.ranks)
      = some none := by decide

/-- C2 (amended): a flush triggered by a branch-header or section-header line
clears the PendingRow entirely (seat types, ranks and percentiles all reset,
stage back to 1); a flush triggered by a seat-type-row line replaces the base
and current seat-type lists with the newly normalized tokens and resets the
stage, but leaves the pending rank and percentile lists unchanged; and a flush
triggered by a same-header second rank line preserves the base seat-type list
while incrementing the stage. -/
theorem C2_amended (ctx : PageCtx) (prev : List Str) (rawLine : Str) (st : PageSt) :
    (∀ bc' bn', searchCodeDash 9 (pyStrip rawLine) = some (bc', bn') →
      stepLine ctx prev rawLine st =
        some ({ branchCode := some bc'
                branchName := some bn'
                sectionLbl := st.sectionLbl
                baseSeatTypes := none
                seatTypes := none
                ranks := none
                percentiles := none
                stage := 1
                srNo := (add_rows ctx st).2.1 },
              (add_rows ctx st).1, (add_rows ctx st).2.2)) ∧
    (∀ sec, searchCodeDash 9 (pyStrip rawLine) = none →
      sectionFind (pyStrip rawLine) = some sec →
      stepLine ctx prev rawLine st =
        some ({ st with
                sectionLbl := some sec
                baseSeatTypes := none
                seatTypes := none
                ranks := none
                percentiles := none
                stage := 1
                srNo := (add_rows ctx st).2.1 },
              (add_rows ctx st).1, (add_rows ctx st).2.2)) ∧
    (∀ g, searchCodeDash 9 (pyStrip rawLine) = none →
      sectionFind (pyStrip rawLine) = none →
      seatTypeFind (pyStrip rawLine) = some g →
      stepLine ctx prev rawLine st =
        some ({ st with
                baseSeatTypes := some ((splitWS g).map normalize_seat_type_inner)
                seatTypes := some ((splitWS g).map normalize_seat_type_inner)
                stage := 1
                srNo := (add_rows ctx st).2.1 },
              (add_rows ctx st).1, (add_rows ctx st).2.2)) ∧
    (∀ g b, searchCodeDash 9 (pyStrip rawLine) = none →
      sectionFind (pyStrip rawLine) = none →
      seatTypeFind (pyStrip rawLine) = none →
      rankFind (pyStrip rawLine) = some g →
      st.baseSeatTypes = some b → b ≠ [] →
      truthyL st.ranks = true → truthyL st.seatTypes = true →
      truthyS st.branchCode = true →
      ∃ st' ws, stepLine ctx prev rawLine st = some (st', (add_rows ctx st).1, ws) ∧
        st'.baseSeatTypes = st.baseSeatTypes ∧
        st'.stage = st.stage + 1 ∧
        st'.srNo = (add_rows ctx st).2.1) := by
  refine ⟨?_, ?_, ?_, ?_⟩
  · intro bc' bn' h1
    simp only [stepLine, h1]
  · intro sec h1 h2
    simp only [stepLine, h1, h2]
  · intro g h1 h2 h3
    simp only [stepLine, h1, h2, h3]
  · intro g b h1 h2 h3 h4 hb hbne hr hs hbc
    have htb : truthyL st.baseSeatTypes = true := by
      rw [hb]
      simpa [truthyL] using hbne
    have hF : truthyL st.ranks = true ∧ truthyL st.seatTypes = true ∧
        truthyS st.branchCode = true := ⟨hr, hs, hbc⟩
    have hneg : ¬ (¬ truthyL st.baseSeatTypes = true ∧ st.sectionLbl.isSome = true) :=
      fun hcon => hcon.1 htb
    simp only [stepLine, h1, h2, h3, h4]
    rw [if_pos hF, if_pos hF, if_neg hneg]
    simp only [hb]
    by_cases hpr : (parseRankTokens (splitWS (pyStrip g))).1 = []
    · rw [if_pos hpr]
      exact ⟨_, _, rfl, rfl, rfl, rfl⟩
    · rw [if_neg hpr, if_pos hbne]
      exact ⟨_, _, rfl, rfl, rfl, rfl⟩

/-- Witness for C2 at a concrete pending state, covering the branch-header,
section-header, seat-type-row and same-header second rank line cases. -/
theorem C2_witness :
    (stepLine ctxW [] "123456789 - Civil Engineering".toList stC2 =
      some ({ branchCode := some "123456789".toList
              branchName := some "Civil Engineering".toList
              sectionLbl := stC2.sectionLbl
              baseSeatTypes := none
              seatTypes := none
              ranks := none
              percentiles := none
              stage := 1
              srNo := (add_rows ctxW stC2).2.1 },
            (add_rows ctxW stC2).1, (add_rows ctxW stC2).2.2)) ∧
    (stepLine ctxW [] "State Level".toList stC2 =
      some ({ stC2 with
              sectionLbl := some "State Level".toList
              baseSeatTypes := none
              seatTypes := none
              ranks := none
              percentiles := none
              stage := 1
              srNo := (add_rows ctxW stC2).2.1 },
            (add_rows ctxW stC2).1, (add_rows ctxW stC2).2.2)) ∧
    (stepLine ctxW [] "Stage LOPEN GOPEN".toList stC2 =
      some ({ stC2 with
              baseSeatTypes := some ((splitWS "LOPEN GOPEN".toList).map
                normalize_seat_type_inner)
              seatTypes := some ((splitWS "LOPEN GOPEN".toList).map
                normalize_seat_type_inner)
              stage := 1
              srNo := (add_rows ctxW stC2).2.1 },
            (add_rows ctxW stC2).1, (add_rows ctxW stC2).2.2)) ∧
    (∃ st' ws, stepLine ctxW [] "i 150".toList stC2
        = some (st', (add_rows ctxW stC2).1, ws) ∧
      st'.baseSeatTypes = stC2.baseSeatTypes ∧
      st'.stage = stC2.stage + 1 ∧
      st'.srNo = (add_rows ctxW stC2).2.1) :=
  ⟨(C2_amended ctxW [] "123456789 - Civil Engineering".toList stC2).1
      "123456789".toList "Civil Engineering".toList (by decide),
   (C2_amended ctxW [] "State Level".toList stC2).2.1
      "State Level".toList (by decide) (by decide),
   (C2_amended ctxW [] "Stage LOPEN GOPEN".toList stC2).2.2.1
      "LOPEN GOPEN".toList (by decide) (by decide) (by decide),
   (C2_amended ctxW [] "i 150".toList stC2).2.2.2
      "150".toList ["GOPEN".toList] (by decide) (by decide) (by decide)
      (by decide) rfl (by decide) (by decide) (by decide) (by decide)⟩

/-- C3: within a single parser run over a document, the serial numbers of
emitted records are strictly increasing by 1 in emission order, starting at
the start value 1, and no serial number is reused or reordered: the k-th
emitted record carries serial 1 + k, and the final counter is 1 plus the
record count. -/
theorem C3_serials_consecutive (pages : List (List Str)) (recs : List Record)
    (ws : List Str) (sr' : Nat)
    (h : extract_data_to_excel pages = some (recs, ws, sr')) :
    sr' = 1 + recs.length ∧
    ∀ k : Nat, k < recs.length → (recs.getD k dummyRecord).sr = 1 + k := by
  obtain ⟨e1, e2, _⟩ := processDoc_inv pages 1 recs ws sr' h
  refine ⟨e1, ?_⟩
  intro k hk
  have hkm : k < (recs.map Record.sr).length := by simpa using hk
  have hq := List.getElem_of_eq e2 hkm
  rw [List.getElem_map] at hq
  rw [List.getElem_range'] at hq
  rw [List.getD_eq_getElem _ dummyRecord hk, hq]
  omega

/-- Witness for C3 on the concrete document consisting of pageE, whose two
records carry serials 1 and 2. -/
theorem C3_serials_witness :
    3 = 1 + recsE.length ∧
    ∀ k : Nat, k < recsE.length → (recsE.getD k dummyRecord).sr = 1 + k :=
  C3_serials_consecutive [pageE] recsE wsE 3 (by decide)

/-- C4: when a branch-header line is encountered while the PendingRow holds
seat types and ranks under a branch, the pending row is flushed exactly once
before the branch context is reset: the step emits exactly the one add_rows
batch of min(len(seat_types), len(ranks)) records, every emitted record
carries the previous branch code and name, and only the resulting state
carries the new branch code. -/
theorem C4_branch_header_flush (ctx : PageCtx) (prev : List Str) (rawLine : Str)
    (st : PageSt) (bc' bn' : Str) (sts rs : List Str) (bc : Str)
    (hline : searchCodeDash 9 (pyStrip rawLine) = some (bc', bn'))
    (hs : st.seatTypes = some sts) (hr : st.ranks = some rs)
    (hb : st.branchCode = some bc)
    (hne : sts ≠ [] ∧ rs ≠ [] ∧ bc ≠ []) :
    stepLine ctx prev rawLine st =
      some ({ branchCode := some bc'
              branchName := some bn'
              sectionLbl := st.sectionLbl
              baseSeatTypes := none
              seatTypes := none
              ranks := none
              percentiles := none
              stage := 1
              srNo := (add_rows ctx st).2.1 },
            (add_rows ctx st).1, (add_rows ctx st).2.2) ∧
    (add_rows ctx st).1.length = min sts.length rs.length ∧
    0 < (add_rows ctx st).1.length ∧
    ∀ r ∈ (add_rows ctx st).1, r.branchCode = bc ∧ r.branchName = st.branchName := by
  refine ⟨?_, add_rows_length ctx st sts rs bc hs hr hb hne, ?_, 
    add_rows_mem_bc ctx st sts rs bc hs hr hb hne⟩
  · simp only [stepLine, hline]
  · rw [add_rows_length ctx st sts rs bc hs hr hb hne]
    have h1 : 0 < sts.length := List.length_pos.mpr hne.1
    have h2 : 0 < rs.length := List.length_pos.mpr hne.2.1
    omega

/-- Witness for C4: a pending row under branch 123456789 followed by the
branch header 987654321 flushes once with the old branch code. -/
theorem C4_witness :
    (stepLine ctxW [] "987654321 - Mechanical Engineering".toList stC1 =
      some ({ branchCode := some "987654321".toList
              branchName := some "Mechanical Engineering".toList
              sectionLbl := stC1.sectionLbl
              baseSeatTypes := none
              seatTypes := none
              ranks := none
              percentiles := none
              stage := 1
              srNo := (add_rows ctxW stC1).2.1 },
            (add_rows ctxW stC1).1, (add_rows ctxW stC1).2.2)) ∧
    (add_rows ctxW stC1).1.length
        = min ["GOPEN".toList, "LOPEN".toList].length ["100".toList].length ∧
    0 < (add_rows ctxW stC1).1.length ∧
    ∀ r ∈ (add_rows ctxW stC1).1,
      r.branchCode = "123456789".toList ∧ r.branchName = stC1.branchName :=
  C4_branch_header_flush ctxW [] "987654321 - Mechanical Engineering".toList stC1
    "987654321".toList "Mechanical Engineering".toList
    ["GOPEN".toList, "LOPEN".toList] ["100".toList] "123456789".toList
    (by decide) rfl rfl rfl (by decide)

/-- Counterexample to C5 as stated: the token AB0 matches the shape optional
G or L prefix, up to four letters, then a trailing digit 0, yet the inner
normalizer used by the reassembler returns it unchanged instead of rewriting
the trailing 0 to the letter O. -/
theorem C5_counterexample :
    matchesGL4Zero "AB0".toList = true ∧
    normalize_seat_type_inner "AB0".toList = "AB0".toList ∧
    ¬ normalize_seat_type_inner "AB0".toList = ("AB0".toList).dropLast ++ ['O'] := by
  decide

/-- C5 (amended): the normalizer used by the reassembler rewrites the
trailing digit 0 to the letter O only for tokens of the shape optional G or L
prefix, then NT, then one digit, then 0: every token of that narrow shape is
rewritten, and every token matching the wider claimed shape (optional G or L
prefix, up to four letters, then a trailing digit 0) but not the narrow one
passes through unchanged; the named examples hold:
normalize(EWWS) = EWS and normalize(GNT10) = GNT1O. -/
theorem C5_amended :
    (∀ t : Str, matchesGLNTd0 t = true →
        normalize_seat_type_inner t = t.dropLast ++ ['O']) ∧
    (∀ t : Str, matchesGL4Zero t = true → matchesGLNTd0 t = false →
        normalize_seat_type_inner t = t) ∧
    normalize_seat_type_inner "EWWS".toList = "EWS".toList ∧
    normalize_seat_type_inner "GNT10".toList = "GNT1O".toList := by
  refine ⟨?_, fun t hw hn => normalize_inner_wide_not_narrow t hw hn,
    by decide, by decide⟩
  intro t h
  rcases matchesGLNTd0_shape t h with ⟨d, hd, rfl⟩ | ⟨g, d, hg, hd, rfl⟩
  · rcases digitCases d hd with rfl | rfl | rfl | rfl | rfl | rfl | rfl | rfl |
      rfl | rfl <;> decide
  · rcases hg with rfl | rfl <;>
      rcases digitCases d hd with rfl | rfl | rfl | rfl | rfl | rfl | rfl | rfl |
        rfl | rfl <;> decide

/-- Witness for C5 on two tokens: GNT40, which matches the narrow shape and
is rewritten to GNT4O, and OPEN0, which matches only the wide shape and
passes through unchanged. -/
theorem C5_witness :
    normalize_seat_type_inner "GNT40".toList = ("GNT40".toList).dropLast ++ ['O'] ∧
    normalize_seat_type_inner "OPEN0".toList = "OPEN0".toList :=
  ⟨C5_amended.1 "GNT40".toList (by decide),
   C5_amended.2.1 "OPEN0".toList (by decide) (by decide)⟩

/-- C6: evaluation at the failing input. For the rank-line token 1,234 the
rank recorded by the parser is the first digit group 1, a proper prefix of
the full digit string 1234 that the claim requires. -/
theorem C6_rank_truncated :
    rankFind (pyStrip "i 1,234".toList) = some "1,234".toList ∧
    (stepLine ctxW [] "i 1,234".toList stC6).map (fun x => x.1.ranks)
        = some (some ["1".toList]) ∧
    ¬ ("1".toList : Str) = "1234".toList := by decide

/-- C7: the seat-type normalizer used by the reassembler is idempotent on
every token; a token, being already whitespace-split, contains no whitespace
character. -/
theorem C7_normalize_idempotent (t : Str) (hws : ∀ c ∈ t, isPySpace c = false) :
    normalize_seat_type_inner (normalize_seat_type_inner t)
      = normalize_seat_type_inner t := by
  have hSws : ∀ c ∈ (rstripPunct (pyStrip t)).map pyToUpper, isPySpace c = false := by
    intro c hc
    obtain ⟨c', hc', rfl⟩ := List.mem_map.mp hc
    rw [isPySpace_pyToUpper]
    exact hws c' (mem_of_mem_pyStrip _ _ (mem_of_mem_rstripPunct _ _ hc'))
  rcases hcorr : innerCorrections ((rstripPunct (pyStrip t)).map pyToUpper) with _ | v
  · cases hmatch : matchesGLNTd0 ((rstripPunct (pyStrip t)).map pyToUpper) with
    | true =>
      rcases matchesGLNTd0_shape _ hmatch with ⟨d, hd, hshape⟩ | ⟨g, d, hg, hd, hshape⟩
      · have hNt : normalize_seat_type_inner t = ['N', 'T', d, 'O'] := by
          simp only [normalize_seat_type_inner, hcorr, hmatch, if_true]
          rw [hshape]
          rfl
        rw [hNt]
        rcases digitCases d hd with rfl | rfl | rfl | rfl | rfl | rfl | rfl | rfl |
          rfl | rfl <;> decide
      · have hNt : normalize_seat_type_inner t = [g, 'N', 'T', d, 'O'] := by
          simp only [normalize_seat_type_inner, hcorr, hmatch, if_true]
          rw [hshape]
          rfl
        rw [hNt]
        rcases hg with rfl | rfl <;>
          rcases digitCases d hd with rfl | rfl | rfl | rfl | rfl | rfl | rfl | rfl |
            rfl | rfl <;> decide
    | false =>
      have hNt : normalize_seat_type_inner t
          = (rstripPunct (pyStrip t)).map pyToUpper := by
        simp only [normalize_seat_type_inner, hcorr, hmatch, Bool.false_eq_true,
          if_false]
        exact pyStrip_eq_self _ hSws
      have hSlast : ∀ c, ((rstripPunct (pyStrip t)).map pyToUpper).getLast? = some c →
          isTrailPunct c = false := by
        intro c hc
        rw [List.getLast?_map] at hc
        rcases hlast : (rstripPunct (pyStrip t)).getLast? with _ | c'
        · rw [hlast] at hc
          simp at hc
        · rw [hlast] at hc
          simp only [Option.map_some', Option.some.injEq] at hc
          subst hc
          rw [isTrailPunct_pyToUpper]
          exact getLast?_rstripPunct _ _ hlast
      have hS : (rstripPunct (pyStrip ((rstripPunct (pyStrip t)).map pyToUpper))).map pyToUpper
          = (rstripPunct (pyStrip t)).map pyToUpper := by
        rw [pyStrip_eq_self _ hSws, rstripPunct_eq_self _ hSlast]
        exact map_pyToUpper_idem _
      rw [hNt]
      simp only [normalize_seat_type_inner, hS, hcorr, hmatch, Bool.false_eq_true,
        if_false]
      exact pyStrip_eq_self _ hSws
  · have hNt : normalize_seat_type_inner t = v := by
      simp only [normalize_seat_type_inner, hcorr]
    rw [hNt]
    rcases innerCorrections_values _ _ hcorr with rfl | rfl | rfl | rfl | rfl | rfl |
      rfl | rfl <;> decide

/-- Witness for C7 on the concrete token gnt20; with trailing punctuation
and lowercase letters. -/
theorem C7_witness :
    normalize_seat_type_inner (normalize_seat_type_inner "gnt20;".toList)
      = normalize_seat_type_inner "gnt20;".toList :=
  C7_normalize_idempotent "gnt20;".toList (by decide)

/-- Counterexample to C8 as stated: the line with the seven-digit code
1234567 is not accepted as a branch header; the branch pattern does not match
it and the scan of the line from the initial state leaves the branch code
unset. -/
theorem C8_counterexample :
    searchCodeDash 9 (pyStrip "1234567 - Civil Engineering".toList) = none ∧
    (stepLine ctxW [] "1234567 - Civil Engineering".toList (initSt 1)).map
        (fun x => x.1.branchCode) = some none := by decide

/-- C8 (amended): a branch-header line is accepted only when it contains a
run of exactly nine digits followed by space dash space and at least one
further character; the width is hard-coded at nine. A line without such a
run is not recognized as a branch header and the step leaves the current
branch code unchanged, with no dedicated warning. -/
theorem C8_amended :
    (∀ l code rest : Str, searchCodeDash 9 l = some (code, rest) →
        code.length = 9 ∧ code.all Char.isDigit = true ∧ rest ≠ []) ∧
    (∀ (ctx : PageCtx) (prev : List Str) (rawLine : Str) (st st' : PageSt)
        (recs : List Record) (ws : List Str),
        searchCodeDash 9 (pyStrip rawLine) = none →
        stepLine ctx prev rawLine st = some (st', recs, ws) →
        st'.branchCode = st.branchCode) :=
  ⟨fun l code rest h => searchCodeDash_spec l code rest h,
   fun ctx prev rawLine st st' recs ws hno h =>
     stepLine_keeps_branch ctx prev rawLine st st' recs ws hno h⟩

/-- Witness for C8: the nine-digit line is accepted with a nine-digit
all-digit code, and the seven-digit line leaves the branch code of the
initial state unchanged. -/
theorem C8_witness :
    (("123456789".toList : Str).length = 9 ∧
     ("123456789".toList : Str).all Char.isDigit = true ∧
     ("Civil Engineering".toList : Str) ≠ []) ∧
    stC8.branchCode = (initSt 1).branchCode :=
  ⟨C8_amended.1 "123456789 - Civil Engineering".toList "123456789".toList
      "Civil Engineering".toList (by decide),
   C8_amended.2 ctxW [] "1234567 - Civil Engineering".toList (initSt 1) stC8
      [] [warnNoNumber, warnNoNumber, warnNoNumber, warnNoBase]
      (by decide) (by decide)⟩

/-- C9: a page whose text contains no recognizable institute-header line
contributes zero records, produces the no-college warning, and does not
abort the processing of the remaining pages: the document result is exactly
the result of the remaining pages with that warning prepended. -/
theorem C9_no_college_page (sr : Nat) (p : List Str) (ps : List (List Str))
    (h : collegeFind p = none) :
    processPage sr p = some ([], [warnNoCollege], sr) ∧
    processDoc sr (p :: ps)
      = (processDoc sr ps).map (fun x => (x.1, warnNoCollege :: x.2.1, x.2.2)) := by
  have h1 : processPage sr p = some ([], [warnNoCollege], sr) := by
    unfold processPage
    rw [h]
  refine ⟨h1, ?_⟩
  simp only [processDoc, h1]
  rcases processDoc sr ps with _ | ⟨recs2, ws2, sr2⟩ <;> simp

/-- Witness for C9 on a one-line page without an institute header. -/
theorem C9_witness :
    processPage 1 ["hello world".toList] = some ([], [warnNoCollege], 1) ∧
    processDoc 1 [["hello world".toList]]
      = (processDoc 1 ([] : List (List Str))).map
          (fun x => (x.1, warnNoCollege :: x.2.1, x.2.2)) :=
  C9_no_college_page 1 ["hello world".toList] [] (by decide)

/-- C10: every flush is a no-op until a branch code has been set: add_rows
with no branch code emits nothing and leaves the serial counter unchanged,
and every record emitted by a parser run carries a non-empty branch code. -/
theorem C10_branch_code_required :
    (∀ (ctx : PageCtx) (st : PageSt), st.branchCode = none →
        (add_rows ctx st).1 = [] ∧ (add_rows ctx st).2.1 = st.srNo) ∧
    (∀ (pages : List (List Str)) (recs : List Record) (ws : List Str) (sr' : Nat),
        extract_data_to_excel pages = some (recs, ws, sr') →
        ∀ r ∈ recs, r.branchCode ≠ []) := by
  constructor
  · intro ctx st hb
    unfold add_rows
    split
    · rename_i sts rs bc h1 h2 h3
      rw [hb] at h3
      exact Option.noConfusion h3
    · exact ⟨rfl, rfl⟩
  · intro pages recs ws sr' h
    exact (processDoc_inv pages 1 recs ws sr' h).2.2

/-- Witness for C10: a flush from the initial state emits nothing, and the
first record emitted on pageE carries a non-empty branch code. -/
theorem C10_witness :
    ((add_rows ctxW (initSt 5)).1 = [] ∧
     (add_rows ctxW (initSt 5)).2.1 = (initSt 5).srNo) ∧
    recE1.branchCode ≠ [] :=
  ⟨C10_branch_code_required.1 ctxW (initSt 5) rfl,
   C10_branch_code_required.2 [pageE] recsE wsE 3 (by decide) recE1 (by decide)⟩
